import Mathlib

/-!
# cs-unifi-bouncer: reconciliation engine

A shallow embedding of `unifi.go` (`updateFirewall`, `add`, `remove`, `decisionProcess`) and of
the event loop of `main.go`, followed by the properties established about them.

Conventions of the embedding.

* Go `int` is the 64-bit two's-complement integer: values are `Int`, and every arithmetic result
  goes through `wrap`.
* A Go run-time panic (slice bounds, division by zero) is the result `none`.
* A Go `map[string]T` is an association list (`GoMap`); `goSet` and `goDelete` keep its keys
  distinct. The order in which a `range` visits the keys is left to `Runtime.mapOrder`.
* The remote controller is an oracle (`Runtime.respond`) answering each call from the history of
  calls made so far; every call is recorded, oldest first, in `World.calls`.
* The unbounded deletion scans take a `fuel` argument; the statements about them say how much
  fuel is enough.
* Log output is not modelled.
-/

namespace CsUnifiBouncer

/-! ## Go integers -/

/-- Largest value of a Go `int` on a 64-bit platform. -/
def maxInt : Int := 9223372036854775807

/-- Two's-complement wrap-around of a mathematical integer into the range of a Go `int`. -/
def wrap (x : Int) : Int :=
  (x + 9223372036854775808) % 18446744073709551616 - 9223372036854775808

/-- Go integer division `a / b`: truncates toward zero, panics when `b` is zero. -/
def goDiv (a b : Int) : Option Int :=
  if b = 0 then none else some (wrap (Int.tdiv a b))

/-- Go slice expression `xs[i:e]` on a slice whose capacity equals its length. -/
def goSlice {α : Type} (xs : List α) (i e : Int) : Option (List α) :=
  if 0 ≤ i ∧ i ≤ e ∧ e ≤ (xs.length : Int) then
    some ((xs.drop i.toNat).take (e - i).toNat)
  else none

/-! ## strconv.Itoa -/

/-- Decimal digit `d` (for `d < 10`) as a character. -/
def digitChar (d : Nat) : Char := Char.ofNat (48 + d)

/-- Decimal digits of `n`, most significant first; `fuel` bounds the number of digits. -/
def natDigits : Nat → Nat → List Char
  | 0, _ => []
  | fuel + 1, n =>
    if n < 10 then [digitChar n] else natDigits fuel (n / 10) ++ [digitChar (n % 10)]

/-- Go `strconv.Itoa`. -/
def itoa (i : Int) : String :=
  if i < 0 then String.mk ('-' :: natDigits (i.natAbs + 1) i.natAbs)
  else String.mk (natDigits (i.natAbs + 1) i.natAbs)

/-! ## The split loop (unifi.go 166-175 and 247-256) -/

/-- The expression `(len(addresses) + maxGroupSize - 1) / maxGroupSize` of lines 166 and 247. -/
def numGroups (len : Nat) (maxGroupSize : Int) : Option Int :=
  goDiv (wrap (wrap ((len : Int) + maxGroupSize) - 1)) maxGroupSize

/-- The loop `for i := 0; i < len(addresses); i += maxGroupSize` of lines 170 and 251,
started at `i`, with the rest of the loop body abstracted as `body state (i/maxGroupSize) group`.
Every iteration that does not panic advances `i`, so `fuel` larger than the number of
addresses is never used up unless `maxGroupSize` is zero, where the index division panics. -/
def splitLoopAux {σ : Type} (addresses : List String) (maxGroupSize : Int)
    (body : σ → Int → List String → σ) : Nat → Int → σ → Option σ
  | 0, _, _ => none
  | fuel + 1, i, s =>
    if i < (addresses.length : Int) then
      let e := wrap (i + maxGroupSize)
      let e := if e > (addresses.length : Int) then (addresses.length : Int) else e
      match goSlice addresses i e with
      | none => none
      | some group =>
        match goDiv i maxGroupSize with
        | none => none
        | some idx =>
          splitLoopAux addresses maxGroupSize body fuel (wrap (i + maxGroupSize)) (body s idx group)
    else some s

/-- The split loop from `i := 0`. -/
def splitLoop {σ : Type} (addresses : List String) (maxGroupSize : Int)
    (body : σ → Int → List String → σ) (s : σ) : Option σ :=
  splitLoopAux addresses maxGroupSize body (addresses.length + 1) 0 s

/-- Loop body that only records the chunk index and the chunk. -/
def collect (acc : List (Int × List String)) (idx : Int) (group : List String) :
    List (Int × List String) :=
  acc ++ [(idx, group)]

/-- The chunks `addresses[k*N .. min((k+1)*N, c))` for `k < ceil(c/N)`, paired with `k`. -/
def chunksOf (addresses : List String) (n : Nat) : List (Int × List String) :=
  (List.range ((addresses.length + n - 1) / n)).map
    (fun (k : Nat) => ((k : Int), (addresses.drop (k * n)).take n))

/-- The chunk with index `k`. -/
def chunkAt (addresses : List String) (n : Nat) (k : Nat) : Int × List String :=
  ((k : Int), (addresses.drop (k * n)).take n)

/-! ## Go maps -/

/-- A Go `map[string]α`. -/
abbrev GoMap (α : Type) := List (String × α)

/-- The lookup `v, exists := m[k]`. -/
def goLookup {α : Type} : GoMap α → String → Option α
  | [], _ => none
  | (k1, v) :: t, k => if k1 = k then some v else goLookup t k

/-- The assignment `m[k] = v`. -/
def goSet {α : Type} (m : GoMap α) (k : String) (v : α) : GoMap α :=
  (k, v) :: m.filter (fun p => decide (p.1 ≠ k))

/-- The statement `delete(m, k)`. -/
def goDelete {α : Type} (m : GoMap α) (k : String) : GoMap α :=
  m.filter (fun p => decide (p.1 ≠ k))

/-- The keys of a map, in the order of the representation. -/
def goKeys {α : Type} (m : GoMap α) : List String := m.map Prod.fst

/-- The expression `m[k]` on a `map[string]bool`: `false` for a missing key. -/
def goIndex (m : GoMap Bool) (k : String) : Bool := (goLookup m k).getD false

/-! ## Data model (main.go 15-29, unifi.go 42-52) -/

/-- Cached legacy rule: its id and the id of the group it references. -/
structure FirewallRuleCache where
  id : String
  groupId : String
deriving DecidableEq

/-- Cached zone policy: its id and the id of the group it references. -/
structure FirewallZonePolicyCache where
  id : String
  groupId : String
deriving DecidableEq

/-- Cached zone: its id. -/
structure ZoneCache where
  id : String
deriving DecidableEq

/-- The receiver `mal` without its client handle `c`; the fields are those `unifi.go` uses. -/
structure unifiAddrList where
  cacheIpv4 : GoMap Bool
  cacheIpv6 : GoMap Bool
  firewallGroupsIPv4 : GoMap String
  firewallGroupsIPv6 : GoMap String
  firewallRuleIPv4 : GoMap FirewallRuleCache
  firewallRuleIPv6 : GoMap FirewallRuleCache
  firewallZonePolicyIPv4 : GoMap FirewallZonePolicyCache
  firewallZonePolicyIPv6 : GoMap FirewallZonePolicyCache
  modified : Bool
  isZoneBased : Bool
  firewallZones : GoMap ZoneCache
deriving DecidableEq

/-- The package-level configuration variables read by `unifi.go`. -/
structure Config where
  maxGroupSize : Int
  useIPV6 : Bool
  unifiZoneSrc : List String
  unifiZoneDst : List String

/-- A `models.Decision`; the fields other than `Type` and `Value` only reach the log. -/
structure Decision where
  type : String
  value : String
deriving DecidableEq

/-- A `models.DecisionsStreamResponse`. -/
structure DecisionsStreamResponse where
  Deleted : List Decision
  New : List Decision

/-- A call on the controller client `mal.c`. -/
inductive Call where
  | CreateFirewallGroup (name : String) (members : List String)
  | UpdateFirewallGroup (id name : String) (members : List String)
  | CreateFirewallRule (name groupId : String)
  | UpdateFirewallRule (id name groupId : String)
  | CreateFirewallZonePolicy (name groupId zoneSrc zoneDst : String)
  | UpdateFirewallZonePolicy (id name groupId zoneSrc zoneDst : String)
  | DeleteFirewallRule (id : String)
  | DeleteFirewallGroup (id : String)
deriving DecidableEq

/-- What the program does not control: the controller's answer to a call, given the calls made
before it (`none` is an error, `some id` a success carrying the id of the object), and the order
in which a `range` over a map visits its keys. -/
structure Runtime where
  respond : List Call → Call → Option String
  mapOrder : List String → List String

/-- The receiver together with the calls made on the controller so far, oldest first. -/
structure World where
  mal : unifiAddrList
  calls : List Call
deriving DecidableEq

/-! ## Names and per-family fields -/

/-- The literal every object name of a family starts with. -/
def familyTag (ipv6 : Bool) : String :=
  if ipv6 then "cs-unifi-bouncer-ipv6-" else "cs-unifi-bouncer-ipv4-"

/-- The name `"cs-unifi-bouncer-ipv4-"+strconv.Itoa(i)` of a group and of its rule. -/
def groupName (ipv6 : Bool) (idx : Int) : String := familyTag ipv6 ++ itoa idx

/-- The name `fmt.Sprintf("cs-unifi-bouncer-ipv4-%s->%s-%d", zoneSrc, zoneDst, i)` of a policy. -/
def policyName (ipv6 : Bool) (zoneSrc zoneDst : String) (idx : Int) : String :=
  familyTag ipv6 ++ zoneSrc ++ "->" ++ zoneDst ++ "-" ++ itoa idx

/-- The address cache of a family. -/
def cacheOf (ipv6 : Bool) (mal : unifiAddrList) : GoMap Bool :=
  if ipv6 then mal.cacheIpv6 else mal.cacheIpv4

/-- The group cache of a family. -/
def groupsOf (ipv6 : Bool) (mal : unifiAddrList) : GoMap String :=
  if ipv6 then mal.firewallGroupsIPv6 else mal.firewallGroupsIPv4

/-- The rule cache of a family. -/
def rulesOf (ipv6 : Bool) (mal : unifiAddrList) : GoMap FirewallRuleCache :=
  if ipv6 then mal.firewallRuleIPv6 else mal.firewallRuleIPv4

/-- The zone-policy cache of a family. -/
def policiesOf (ipv6 : Bool) (mal : unifiAddrList) : GoMap FirewallZonePolicyCache :=
  if ipv6 then mal.firewallZonePolicyIPv6 else mal.firewallZonePolicyIPv4

/-- The receiver with the group cache of a family replaced. -/
def setGroups (ipv6 : Bool) (mal : unifiAddrList) (m : GoMap String) : unifiAddrList :=
  if ipv6 then { mal with firewallGroupsIPv6 := m } else { mal with firewallGroupsIPv4 := m }

/-- The receiver with the rule cache of a family replaced. -/
def setRules (ipv6 : Bool) (mal : unifiAddrList) (m : GoMap FirewallRuleCache) : unifiAddrList :=
  if ipv6 then { mal with firewallRuleIPv6 := m } else { mal with firewallRuleIPv4 := m }

/-- The receiver with the zone-policy cache of a family replaced. -/
def setPolicies (ipv6 : Bool) (mal : unifiAddrList) (m : GoMap FirewallZonePolicyCache) :
    unifiAddrList :=
  if ipv6 then { mal with firewallZonePolicyIPv6 := m }
  else { mal with firewallZonePolicyIPv4 := m }

/-! ## The post helpers

`postFirewallGroup`, `postFirewallRule` and `postFirewallPolicy` are called by `updateFirewall`
but are defined in another file of the repository. -/

/-- Modelled from the spec: `postFirewallGroup` (its source file is not available). Upsert of
the group of one chunk index: a group with a cached id is updated, otherwise it is created; the
id the controller answers is cached under the group's name and returned. A failed call leaves
the cache as it is and returns the empty id that `updateFirewall` guards against. -/
def postFirewallGroup (rt : Runtime) (w : World) (index : Int) (ID : String) (ipv6 : Bool)
    (members : List String) : String × World :=
  let name := groupName ipv6 index
  let c := if ID = "" then Call.CreateFirewallGroup name members
    else Call.UpdateFirewallGroup ID name members
  match rt.respond w.calls c with
  | none => ("", { w with calls := w.calls ++ [c] })
  | some newId =>
    (newId, { mal := setGroups ipv6 w.mal (goSet (groupsOf ipv6 w.mal) name newId),
              calls := w.calls ++ [c] })

/-- Modelled from the spec: `postFirewallRule` (its source file is not available). Upsert of the
legacy rule of one chunk index, referencing `groupId`; on success the rule's id and the group id
it references are cached under the rule's name, on failure the cache is left as it is. -/
def postFirewallRule (rt : Runtime) (w : World) (index : Int) (ID : String) (ipv6 : Bool)
    (groupId : String) : World :=
  let name := groupName ipv6 index
  let c := if ID = "" then Call.CreateFirewallRule name groupId
    else Call.UpdateFirewallRule ID name groupId
  match rt.respond w.calls c with
  | none => { w with calls := w.calls ++ [c] }
  | some newId =>
    { mal := setRules ipv6 w.mal (goSet (rulesOf ipv6 w.mal) name ⟨newId, groupId⟩),
      calls := w.calls ++ [c] }

/-- Modelled from the spec: `postFirewallPolicy` (its source file is not available). Upsert of
the zone policy of one (source zone, destination zone, chunk index), referencing `groupId`; on
success the policy's id and the group id it references are cached under the policy's name, on
failure the cache is left as it is. -/
def postFirewallPolicy (rt : Runtime) (w : World) (index : Int) (ID : String) (ipv6 : Bool)
    (groupId zoneSrc zoneDst : String) : World :=
  let name := policyName ipv6 zoneSrc zoneDst index
  let c := if ID = "" then Call.CreateFirewallZonePolicy name groupId zoneSrc zoneDst
    else Call.UpdateFirewallZonePolicy ID name groupId zoneSrc zoneDst
  match rt.respond w.calls c with
  | none => { w with calls := w.calls ++ [c] }
  | some newId =>
    { mal := setPolicies ipv6 w.mal (goSet (policiesOf ipv6 w.mal) name ⟨newId, groupId⟩),
      calls := w.calls ++ [c] }

/-! ## updateFirewall (unifi.go 155-305) -/

/-- Function `getKeys`: the keys of the map in the order the run time visits them. -/
def getKeys (rt : Runtime) (m : GoMap Bool) : List String := rt.mapOrder (goKeys m)

/-- Lines 189-199: the body of the loop over the (source zone, destination zone) pairs. -/
def zonePolicyStep (rt : Runtime) (idx : Int) (groupID : String) (w : World)
    (zoneSrc zoneDst : String) : World :=
  let policyId :=
    match goLookup w.mal.firewallZonePolicyIPv4 (policyName false zoneSrc zoneDst idx) with
    | some policyCache => policyCache.id
    | none => ""
  let cachedGroupId :=
    match goLookup w.mal.firewallZonePolicyIPv4 (policyName false zoneSrc zoneDst idx) with
    | some policyCache => policyCache.groupId
    | none => ""
  if groupID ≠ "" ∧ groupID ≠ cachedGroupId then
    postFirewallPolicy rt w idx policyId false groupID zoneSrc zoneDst
  else w

/-- Lines 187-201: the two nested loops over `unifiZoneSrc` and `unifiZoneDst`. -/
def zonePolicyLoop (cfg : Config) (rt : Runtime) (idx : Int) (groupID : String) (w : World) :
    World :=
  cfg.unifiZoneSrc.foldl
    (fun w1 zoneSrc =>
      cfg.unifiZoneDst.foldl (fun w2 zoneDst => zonePolicyStep rt idx groupID w2 zoneSrc zoneDst) w1)
    w

/-- Lines 203-214 (IPv4) and 267-278 (IPv6): post the rule of the chunk unless the cached rule
already references the group. -/
def legacyRuleStep (rt : Runtime) (ipv6 : Bool) (idx : Int) (groupID : String) (w : World) :
    World :=
  let ruleId :=
    match goLookup (rulesOf ipv6 w.mal) (groupName ipv6 idx) with
    | some ruleCache => ruleCache.id
    | none => ""
  let cachedGroupId :=
    match goLookup (rulesOf ipv6 w.mal) (groupName ipv6 idx) with
    | some ruleCache => ruleCache.groupId
    | none => ""
  if groupID ≠ "" ∧ groupID ≠ cachedGroupId then
    postFirewallRule rt w idx ruleId ipv6 groupID
  else w

/-- Lines 177-184 (IPv4) and 258-265 (IPv6): look up the cached group id and post the group. -/
def postGroupStep (rt : Runtime) (ipv6 : Bool) (w : World) (idx : Int) (group : List String) :
    String × World :=
  let groupID :=
    match goLookup (groupsOf ipv6 w.mal) (groupName ipv6 idx) with
    | some id => id
    | none => ""
  postFirewallGroup rt w idx groupID ipv6 group

/-- Lines 177-215: the body of the IPv4 split loop after the slice is taken. -/
def chunkBodyIPv4 (cfg : Config) (rt : Runtime) (w : World) (idx : Int) (group : List String) :
    World :=
  let r := postGroupStep rt false w idx group
  if r.2.mal.isZoneBased then zonePolicyLoop cfg rt idx r.1 r.2
  else legacyRuleStep rt false idx r.1 r.2

/-- Lines 258-278: the body of the IPv6 split loop after the slice is taken. -/
def chunkBodyIPv6 (rt : Runtime) (w : World) (idx : Int) (group : List String) : World :=
  let r := postGroupStep rt true w idx group
  legacyRuleStep rt true idx r.1 r.2

/-- The body of the split loop of a family. -/
def chunkBody (cfg : Config) (rt : Runtime) (ipv6 : Bool) : World → Int → List String → World :=
  if ipv6 then chunkBodyIPv6 rt else chunkBodyIPv4 cfg rt

/-- Lines 226-232 and 289-295: delete the rule, drop its cache entry when the call succeeds. -/
def deleteRuleStep (rt : Runtime) (ipv6 : Bool) (name : String) (ruleCache : FirewallRuleCache)
    (w : World) : World :=
  match rt.respond w.calls (Call.DeleteFirewallRule ruleCache.id) with
  | none => { w with calls := w.calls ++ [Call.DeleteFirewallRule ruleCache.id] }
  | some _ =>
    { mal := setRules ipv6 w.mal (goDelete (rulesOf ipv6 w.mal) name),
      calls := w.calls ++ [Call.DeleteFirewallRule ruleCache.id] }

/-- Lines 234-240 and 297-303: delete the group, drop its cache entry when the call succeeds. -/
def deleteGroupStep (rt : Runtime) (ipv6 : Bool) (name : String) (ruleCache : FirewallRuleCache)
    (w : World) : World :=
  match rt.respond w.calls (Call.DeleteFirewallGroup ruleCache.groupId) with
  | none => { w with calls := w.calls ++ [Call.DeleteFirewallGroup ruleCache.groupId] }
  | some _ =>
    { mal := setGroups ipv6 w.mal (goDelete (groupsOf ipv6 w.mal) name),
      calls := w.calls ++ [Call.DeleteFirewallGroup ruleCache.groupId] }

/-- The deletion scan `for i := numGroups; ; i++` of lines 219-241 (IPv4) and 282-304 (IPv6),
started at `i`. The scan ends at the first name missing from the rule cache; `none` when `fuel`
iterations did not reach it. -/
def deleteLoop (rt : Runtime) (ipv6 : Bool) : Nat → Int → World → Option World
  | 0, _, _ => none
  | fuel + 1, i, w =>
    match goLookup (rulesOf ipv6 w.mal) (groupName ipv6 i) with
    | none => some w
    | some ruleCache =>
      deleteLoop rt ipv6 fuel (wrap (i + 1))
        (deleteGroupStep rt ipv6 (groupName ipv6 i) ruleCache
          (deleteRuleStep rt ipv6 (groupName ipv6 i) ruleCache w))

/-- Lines 162-241 (IPv4) and 243-304 (IPv6): the part of the pass that handles one family. -/
def updateFamily (cfg : Config) (rt : Runtime) (ipv6 : Bool) (fuel : Nat) (w : World) :
    Option World :=
  match numGroups (getKeys rt (cacheOf ipv6 w.mal)).length cfg.maxGroupSize with
  | none => none
  | some n =>
    match splitLoop (getKeys rt (cacheOf ipv6 w.mal)) cfg.maxGroupSize (chunkBody cfg rt ipv6) w with
    | none => none
    | some w1 => deleteLoop rt ipv6 fuel n w1

/-- Function `updateFirewall`. The result is `none` when the pass panics or when `fuel` is too
small for one of its deletion scans. -/
def updateFirewall (cfg : Config) (rt : Runtime) (fuel : Nat) (w : World) : Option World :=
  if w.mal.modified = false then some w
  else
    match updateFamily cfg rt false fuel w with
    | none => none
    | some w1 => updateFamily cfg rt true fuel w1

/-! ## add, remove, decisionProcess (unifi.go 307-376) -/

/-- The test `strings.Contains(*decision.Value, ":")`. -/
def containsColon (s : String) : Bool := s.data.contains ':'

/-- Method `add`. -/
def add (cfg : Config) (mal : unifiAddrList) (decision : Decision) : unifiAddrList :=
  if decision.type ≠ "ban" then mal
  else if containsColon decision.value then
    if cfg.useIPV6 = false then mal
    else if goIndex mal.cacheIpv6 decision.value then mal
    else { mal with modified := true, cacheIpv6 := goSet mal.cacheIpv6 decision.value true }
  else
    if goIndex mal.cacheIpv4 decision.value then mal
    else { mal with modified := true, cacheIpv4 := goSet mal.cacheIpv4 decision.value true }

/-- Method `remove`. -/
def remove (cfg : Config) (mal : unifiAddrList) (decision : Decision) : unifiAddrList :=
  if decision.type ≠ "ban" then mal
  else if containsColon decision.value then
    if cfg.useIPV6 = false then mal
    else if goIndex mal.cacheIpv6 decision.value then
      { mal with modified := true, cacheIpv6 := goDelete mal.cacheIpv6 decision.value }
    else mal
  else
    if goIndex mal.cacheIpv4 decision.value then
      { mal with modified := true, cacheIpv4 := goDelete mal.cacheIpv4 decision.value }
    else mal

/-- Method `decisionProcess`: all deletions, then all additions. -/
def decisionProcess (cfg : Config) (mal : unifiAddrList)
    (streamDecision : DecisionsStreamResponse) : unifiAddrList :=
  streamDecision.New.foldl (add cfg) (streamDecision.Deleted.foldl (remove cfg) mal)

/-! ## The event loop (main.go 69-84) -/

/-- The case `decisions := <-bouncer.Stream` of the event loop. -/
def onDecisions (cfg : Config) (w : World) (decisions : DecisionsStreamResponse) : World :=
  { w with mal := decisionProcess cfg w.mal decisions }

/-- The case `<-inactivityTimer.C` of the event loop: `updateFirewall`, then
`mal.modified = false`. -/
def onTimer (cfg : Config) (rt : Runtime) (fuel : Nat) (w : World) : Option World :=
  match updateFirewall cfg rt fuel w with
  | none => none
  | some w1 => some { w1 with mal := { w1.mal with modified := false } }


/-! ## Specification vocabulary -/


/-- The number of rule-cache entries named after one of the `r` indices the scan visits from
`i` on. -/
def aheadCount (f : Bool) (m : GoMap FirewallRuleCache) (i : Int) (r : Nat) : Nat :=
  m.countP (fun e => decide (∃ t : Nat, t < r ∧ e.1 = groupName f (wrap (i + (t : Int)))))

/-- The (source zone, destination zone) pairs in the order lines 187-188 visit them. -/
def zonePairs (cfg : Config) : List (String × String) :=
  cfg.unifiZoneSrc.flatMap (fun zoneSrc => cfg.unifiZoneDst.map (fun zoneDst => (zoneSrc, zoneDst)))

/-- The guard of line 197 for the pair `p`, read off the policy cache `pol`: the upserted group
id is non-empty and differs from the group id cached under the policy name of the pair. -/
def policyDue (pol : GoMap FirewallZonePolicyCache) (idx : Int) (groupID : String)
    (p : String × String) : Bool :=
  decide (groupID ≠ "" ∧
    groupID ≠ (match goLookup pol (policyName false p.1 p.2 idx) with
      | some policyCache => policyCache.groupId
      | none => ""))

/-- The controller call by which the policy of the pair `p` is posted with group id `groupID`:
an update of the cached policy id, a create when none is cached. -/
def policyCall (pol : GoMap FirewallZonePolicyCache) (idx : Int) (groupID : String)
    (p : String × String) : Call :=
  if (match goLookup pol (policyName false p.1 p.2 idx) with
      | some policyCache => policyCache.id
      | none => "") = "" then
    Call.CreateFirewallZonePolicy (policyName false p.1 p.2 idx) groupID p.1 p.2
  else
    Call.UpdateFirewallZonePolicy
      (match goLookup pol (policyName false p.1 p.2 idx) with
        | some policyCache => policyCache.id
        | none => "")
      (policyName false p.1 p.2 idx) groupID p.1 p.2

/-- The group id a zone-policy call carries. -/
def Call.policyGroupId : Call → Option String
  | .CreateFirewallZonePolicy _ g _ _ => some g
  | .UpdateFirewallZonePolicy _ _ g _ _ => some g
  | _ => none

/-! ## Sample data -/

/-- A receiver as `initUnifi` leaves it on a controller without objects of the bouncer. -/
def emptyList : unifiAddrList :=
  { cacheIpv4 := [], cacheIpv6 := [], firewallGroupsIPv4 := [], firewallGroupsIPv6 := [],
    firewallRuleIPv4 := [], firewallRuleIPv6 := [], firewallZonePolicyIPv4 := [],
    firewallZonePolicyIPv6 := [], modified := false, isZoneBased := false, firewallZones := [] }

/-- A controller on which every call succeeds; the id it answers is derived from the name of the
object for a create call and is the id passed in for the other calls; a map is visited in the
order of its representation. -/
def okRuntime : Runtime :=
  { respond := fun _ c =>
      match c with
      | .CreateFirewallGroup n _ => some ("group-" ++ n)
      | .UpdateFirewallGroup i _ _ => some i
      | .CreateFirewallRule n _ => some ("rule-" ++ n)
      | .UpdateFirewallRule i _ _ => some i
      | .CreateFirewallZonePolicy n _ _ _ => some ("policy-" ++ n)
      | .UpdateFirewallZonePolicy i _ _ _ _ => some i
      | .DeleteFirewallRule i => some i
      | .DeleteFirewallGroup i => some i,
    mapOrder := fun l => l }

/-- A legacy-mode receiver with one banned IPv4 address and the rules and groups of the indices
0, 1 and 2 cached. -/
def shrunkList : unifiAddrList :=
  { emptyList with
    cacheIpv4 := [("192.0.2.1", true)],
    firewallGroupsIPv4 := [("cs-unifi-bouncer-ipv4-0", "g0"), ("cs-unifi-bouncer-ipv4-1", "g1"),
      ("cs-unifi-bouncer-ipv4-2", "g2")],
    firewallRuleIPv4 := [("cs-unifi-bouncer-ipv4-0", ⟨"r0", "g0"⟩),
      ("cs-unifi-bouncer-ipv4-1", ⟨"r1", "g1"⟩), ("cs-unifi-bouncer-ipv4-2", ⟨"r2", "g2"⟩)],
    modified := true }

/-- Groups of two addresses, IPv6 enabled, one source zone and one destination zone. -/
def sampleConfig : Config :=
  { maxGroupSize := 2, useIPV6 := true, unifiZoneSrc := ["lan"], unifiZoneDst := ["wan"] }

/-- A zone-mode receiver with one banned IPv4 address and nothing cached. -/
def zoneList : unifiAddrList :=
  { emptyList with cacheIpv4 := [("192.0.2.1", true)], modified := true, isZoneBased := true }

/-- Two source zones and three destination zones. -/
def twoByThree : Config :=
  { maxGroupSize := 2, useIPV6 := true, unifiZoneSrc := ["lan", "guest"],
    unifiZoneDst := ["wan", "dmz", "vpn"] }

/-- A source zone listed twice. -/
def repeatedZone : Config :=
  { maxGroupSize := 2, useIPV6 := true, unifiZoneSrc := ["lan", "lan"], unifiZoneDst := ["wan"] }

/-- A controller that refuses to delete groups and accepts every other call. -/
def groupDeleteFails : Runtime :=
  { respond := fun hist c =>
      match c with
      | .DeleteFirewallGroup _ => none
      | _ => okRuntime.respond hist c,
    mapOrder := fun l => l }

/-- A reconciled legacy-mode receiver: one banned IPv4 address, its group and its rule cached,
nothing to push. -/
def settledList : unifiAddrList :=
  { emptyList with
    cacheIpv4 := [("198.51.100.7", true)],
    firewallGroupsIPv4 := [("cs-unifi-bouncer-ipv4-0", "g0")],
    firewallRuleIPv4 := [("cs-unifi-bouncer-ipv4-0", ⟨"r0", "g0"⟩)] }

/-- A legacy-mode receiver whose address count has shrunk to one chunk while the rule and the
group of index 1 are still cached. -/
def staleList : unifiAddrList :=
  { emptyList with
    cacheIpv4 := [("198.51.100.7", true)],
    firewallGroupsIPv4 := [("cs-unifi-bouncer-ipv4-0", "g0"), ("cs-unifi-bouncer-ipv4-1", "g1")],
    firewallRuleIPv4 := [("cs-unifi-bouncer-ipv4-0", ⟨"r0", "g0"⟩),
      ("cs-unifi-bouncer-ipv4-1", ⟨"r1", "g1"⟩)],
    modified := true }

/-- A zone-mode receiver whose address count has shrunk to one chunk while the zone policy and
the group of index 1 are still cached. -/
def staleZoneList : unifiAddrList :=
  { emptyList with
    cacheIpv4 := [("198.51.100.7", true)],
    firewallGroupsIPv4 := [("cs-unifi-bouncer-ipv4-0", "g0"), ("cs-unifi-bouncer-ipv4-1", "g1")],
    firewallZonePolicyIPv4 := [("cs-unifi-bouncer-ipv4-lan->wan-0", ⟨"p0", "g0"⟩),
      ("cs-unifi-bouncer-ipv4-lan->wan-1", ⟨"p1", "g1"⟩)],
    modified := true,
    isZoneBased := true }

/-- A zone-mode receiver with one banned IPv6 address and nothing cached. -/
def zoneListIPv6 : unifiAddrList :=
  { emptyList with cacheIpv6 := [("2001:db8::1", true)], modified := true, isZoneBased := true }

theorem wrap_of_range (x : Int) (h1 : -9223372036854775808 ≤ x) (h2 : x < 9223372036854775808) :
    wrap x = x := by
  unfold wrap; omega

theorem lt_ceil_iff (c n k : Nat) (hn : 1 ≤ n) : k < (c + n - 1) / n ↔ k * n < c := by
  rw [Nat.lt_iff_add_one_le, Nat.le_div_iff_mul_le (by omega)]
  constructor
  · intro h
    have : (k + 1) * n = k * n + n := by ring
    omega
  · intro h
    have : (k + 1) * n = k * n + n := by ring
    omega

theorem tdiv_mul_cast (k n : Nat) (hn : 1 ≤ n) : Int.tdiv ((k * n : Nat) : Int) (n : Int) = (k : Int) := by
  rw [← Int.ofNat_tdiv]
  simp [Nat.mul_div_cancel _ (by omega : 0 < n)]


theorem splitLoopAux_run {σ : Type} (addresses : List String) (n : Nat) (hn : 1 ≤ n)
    (hr : addresses.length + n ≤ 9223372036854775808) (body : σ → Int → List String → σ) :
    ∀ (j k : Nat) (s : σ) (fuel : Nat), k + j = (addresses.length + n - 1) / n → j < fuel →
      splitLoopAux addresses (n : Int) body fuel ((k * n : Nat) : Int) s
        = some (((List.range' k j).map (chunkAt addresses n)).foldl (fun s p => body s p.1 p.2) s) := by
  intro j
  induction j with
  | zero =>
    intro k s fuel hk hf
    obtain ⟨f, rfl⟩ : ∃ f, fuel = f + 1 := ⟨fuel - 1, by omega⟩
    have h1 : ¬ (k * n < addresses.length) := by
      rw [← lt_ceil_iff _ _ _ hn]; omega
    have h2 : ¬ (((k * n : Nat) : Int) < (addresses.length : Int)) := by
      intro h; exact h1 (by exact_mod_cast h)
    rw [splitLoopAux, if_neg h2]; rfl
  | succ j ih =>
    intro k s fuel hk hf
    obtain ⟨f, rfl⟩ : ∃ f, fuel = f + 1 := ⟨fuel - 1, by omega⟩
    have h1 : k * n < addresses.length := by
      rw [← lt_ceil_iff _ _ _ hn]; omega
    have h2 : ((k * n : Nat) : Int) < (addresses.length : Int) := by exact_mod_cast h1
    have hkk : (k + 1) * n = k * n + n := by ring
    have hw : wrap (((k * n : Nat) : Int) + (n : Int)) = (((k + 1) * n : Nat) : Int) := by
      have h3 : -9223372036854775808 ≤ ((k * n : Nat) : Int) + (n : Int) := by omega
      have h4 : ((k * n : Nat) : Int) + (n : Int) < 9223372036854775808 := by omega
      rw [wrap_of_range _ h3 h4, hkk]; push_cast; ring
    have hkle : k ≤ k * n := Nat.le_mul_of_pos_right k (by omega)
    have hd : goDiv ((k * n : Nat) : Int) (n : Int) = some (k : Int) := by
      unfold goDiv
      rw [if_neg (by omega), tdiv_mul_cast k n hn, wrap_of_range _ (by omega) (by omega)]
    have hs : goSlice addresses ((k * n : Nat) : Int)
        (if (((k + 1) * n : Nat) : Int) > (addresses.length : Int) then (addresses.length : Int)
          else (((k + 1) * n : Nat) : Int)) = some ((addresses.drop (k * n)).take n) := by
      unfold goSlice
      split_ifs with ha hb hb
      · have : ((addresses.length : Int) - ((k * n : Nat) : Int)).toNat = addresses.length - k * n := by
          omega
        simp only [Int.toNat_ofNat, this]
        have e1 : (addresses.drop (k * n)).take (addresses.length - k * n) = addresses.drop (k * n) :=
          List.take_of_length_le (by simp)
        have e2 : (addresses.drop (k * n)).take n = addresses.drop (k * n) :=
          List.take_of_length_le (by simp; omega)
        rw [e1, e2]
      · exfalso; apply hb; omega
      · have : ((((k + 1) * n : Nat) : Int) - ((k * n : Nat) : Int)).toNat = n := by
          rw [hkk]; push_cast; omega
        simp only [Int.toNat_ofNat, this]
      · exfalso; apply hb; rw [hkk]; push_cast; omega
    rw [splitLoopAux, if_pos h2]
    simp only [hw, hs, hd]
    rw [ih (k + 1) _ f (by omega) (by omega)]
    simp [List.range', chunkAt]

theorem splitLoop_eq_foldl {σ : Type} (addresses : List String) (n : Nat) (hn : 1 ≤ n)
    (hr : addresses.length + n ≤ 9223372036854775808) (body : σ → Int → List String → σ) (s : σ) :
    splitLoop addresses (n : Int) body s
      = some ((chunksOf addresses n).foldl (fun s p => body s p.1 p.2) s) := by
  have hm : (addresses.length + n - 1) / n ≤ addresses.length := by
    by_contra h
    have := (lt_ceil_iff addresses.length n addresses.length hn).1 (by omega)
    have : addresses.length ≤ addresses.length * n := Nat.le_mul_of_pos_right _ (by omega)
    omega
  have := splitLoopAux_run addresses n hn hr body ((addresses.length + n - 1) / n) 0 s
    (addresses.length + 1) (by omega) (by omega)
  simp only [Nat.zero_mul, Nat.cast_zero] at this
  unfold splitLoop
  rw [this]
  simp [chunksOf, List.range_eq_range', chunkAt]
  rfl

/-- The fuel of the split loop never decides: for `maxGroupSize` a Go `int`, any two amounts of
fuel above the number of addresses still to visit give the same result. -/
theorem splitLoopAux_fuel {σ : Type} (addresses : List String) (maxGroupSize : Int)
    (body : σ → Int → List String → σ) (h1 : -9223372036854775808 ≤ maxGroupSize)
    (h2 : maxGroupSize < 9223372036854775808) :
    ∀ (fuel1 fuel2 : Nat) (i : Int) (s : σ), 0 ≤ i →
      1 ≤ fuel1 → (addresses.length : Int) - i + 1 ≤ fuel1 →
      1 ≤ fuel2 → (addresses.length : Int) - i + 1 ≤ fuel2 →
      splitLoopAux addresses maxGroupSize body fuel1 i s
        = splitLoopAux addresses maxGroupSize body fuel2 i s := by
  intro fuel1
  induction fuel1 with
  | zero => intro fuel2 i s _ h; omega
  | succ f1 ih =>
    intro fuel2 i s hi _ hf1 hp2 hf2
    obtain ⟨f2, rfl⟩ : ∃ f2, fuel2 = f2 + 1 := ⟨fuel2 - 1, by omega⟩
    rw [splitLoopAux, splitLoopAux]
    split_ifs with hlt
    · simp only
      cases hs : goSlice addresses i
          (if wrap (i + maxGroupSize) > (addresses.length : Int) then (addresses.length : Int)
            else wrap (i + maxGroupSize)) with
      | none => rfl
      | some group =>
        cases hd : goDiv i maxGroupSize with
        | none => rfl
        | some idx =>
          simp only
          have hne : maxGroupSize ≠ 0 := by
            intro h0; simp [goDiv, h0] at hd
          have hadv : i + 1 ≤ wrap (i + maxGroupSize) := by
            have hb : 0 ≤ i ∧
                i ≤ (if wrap (i + maxGroupSize) > (addresses.length : Int) then
                  (addresses.length : Int) else wrap (i + maxGroupSize)) ∧
                (if wrap (i + maxGroupSize) > (addresses.length : Int) then
                  (addresses.length : Int) else wrap (i + maxGroupSize))
                  ≤ (addresses.length : Int) := by
              by_contra hcon
              unfold goSlice at hs
              rw [if_neg hcon] at hs
              cases hs
            split_ifs at hb with hc
            · omega
            · unfold wrap at hb hc ⊢; omega
          apply ih
          · omega
          · omega
          · push_cast at hf1 ⊢; omega
          · omega
          · push_cast at hf2 ⊢; omega
    · rfl

theorem foldl_collect (l acc : List (Int × List String)) :
    l.foldl (fun s p => collect s p.1 p.2) acc = acc ++ l := by
  induction l generalizing acc with
  | nil => simp
  | cons a t ih => rw [List.foldl_cons, ih]; simp [collect]

theorem numGroups_eq (c n : Nat) (hn : 1 ≤ n) (hr : (c : Int) + n - 1 ≤ maxInt) :
    numGroups c (n : Int) = some (((c + n - 1) / n : Nat) : Int) := by
  unfold maxInt at hr
  have h1 : wrap (wrap ((c : Int) + (n : Int)) - 1) = ((c + n - 1 : Nat) : Int) := by
    unfold wrap; omega
  have h2 : (c + n - 1) / n ≤ c + n - 1 := Nat.div_le_self _ _
  generalize hq : (c + n - 1) / n = q at h2
  unfold numGroups goDiv
  rw [if_neg (by omega), h1, ← Int.ofNat_tdiv, hq, wrap_of_range _ (by omega) (by omega)]

theorem chunk_take_eq (l : List String) (n k : Nat) :
    (l.drop (k * n)).take (min ((k + 1) * n) l.length - k * n) = (l.drop (k * n)).take n := by
  have hkk : (k + 1) * n = k * n + n := by ring
  by_cases h : (k + 1) * n ≤ l.length
  · rw [Nat.min_eq_left h]; congr 1; omega
  · rw [Nat.min_eq_right (by omega)]
    have e1 : (l.drop (k * n)).take (l.length - k * n) = l.drop (k * n) :=
      List.take_of_length_le (by simp)
    have e2 : (l.drop (k * n)).take n = l.drop (k * n) :=
      List.take_of_length_le (by simp; omega)
    rw [e1, e2]

theorem join_chunks (l : List String) (n : Nat) (j : Nat) :
    ((List.range j).map (fun k => (l.drop (k * n)).take n)).flatten = l.take (j * n) := by
  induction j with
  | zero => simp
  | succ j ih =>
    have hkk : (j + 1) * n = j * n + n := by ring
    rw [List.range_succ, List.map_append, List.flatten_append, ih, hkk, List.take_add]
    simp

theorem chunksOf_length (l : List String) (n : Nat) :
    (chunksOf l n).length = (l.length + n - 1) / n := by
  simp [chunksOf]

theorem chunksOf_get (l : List String) (n k : Nat) (hk : k < (chunksOf l n).length) :
    (chunksOf l n)[k]? = some ((k : Int), (l.drop (k * n)).take n) := by
  rw [chunksOf_length] at hk
  simp [chunksOf, List.getElem?_range hk]

theorem ceil_eq (c n : Nat) (hn : 1 ≤ n) : ⌈(c : ℚ) / (n : ℚ)⌉₊ = (c + n - 1) / n := by
  have hnq : (0 : ℚ) < (n : ℚ) := by exact_mod_cast hn
  apply le_antisymm
  · rw [Nat.ceil_le, div_le_iff₀ hnq]
    have h := (lt_ceil_iff c n ((c + n - 1) / n) hn).not.1 (lt_irrefl _)
    exact_mod_cast (not_lt.1 h)
  · by_contra h
    rw [not_le] at h
    have h2 := (lt_ceil_iff c n _ hn).1 h
    have h3 : (c : ℚ) / n ≤ ⌈(c : ℚ) / (n : ℚ)⌉₊ := Nat.le_ceil _
    rw [div_le_iff₀ hnq] at h3
    have h4 : c ≤ ⌈(c : ℚ) / (n : ℚ)⌉₊ * n := by exact_mod_cast h3
    omega

/-- C1 (amended): for every address list of length `c` and every `maxGroupSize` `N ≥ 1` with
`c + N - 1` within the range of a Go `int`, the split loop of `updateFirewall` produces exactly
`ceil(c/N)` chunks, which is the computed `numGroups`; the chunk with index `k` is
`addresses[k*N .. min((k+1)*N, c))`, every chunk is non-empty and of size at most `N`, every
chunk but the last has size `N`, and the chunks concatenated in index order are the list. -/
theorem splitLoop_chunks (addresses : List String) (n : Nat) (hn : 1 ≤ n)
    (hr : (addresses.length : Int) + (n : Int) - 1 ≤ maxInt) :
    ∃ chunks : List (Int × List String),
      splitLoop addresses (n : Int) collect [] = some chunks ∧
      chunks.length = ⌈(addresses.length : ℚ) / (n : ℚ)⌉₊ ∧
      numGroups addresses.length (n : Int) = some (chunks.length : Int) ∧
      (∀ k, k < chunks.length →
        chunks[k]? = some ((k : Int),
          (addresses.drop (k * n)).take (min ((k + 1) * n) addresses.length - k * n))) ∧
      (∀ p ∈ chunks, p.2 ≠ [] ∧ p.2.length ≤ n) ∧
      (∀ k p, k + 1 < chunks.length → chunks[k]? = some p → p.2.length = n) ∧
      (chunks.map Prod.snd).flatten = addresses := by
  have hr2 : addresses.length + n ≤ 9223372036854775808 := by unfold maxInt at hr; omega
  refine ⟨chunksOf addresses n, ?_, ?_, ?_, ?_, ?_, ?_, ?_⟩
  · rw [splitLoop_eq_foldl addresses n hn hr2, foldl_collect]; rfl
  · rw [chunksOf_length, ceil_eq _ _ hn]
  · rw [chunksOf_length]; exact numGroups_eq _ _ hn hr
  · intro k hk
    rw [chunksOf_get _ _ _ hk, chunk_take_eq]
  · intro p hp
    obtain ⟨k, hk, rfl⟩ : ∃ k, k < (addresses.length + n - 1) / n ∧
        ((k : Int), (addresses.drop (k * n)).take n) = p := by
      simpa [chunksOf] using hp
    have hlt := (lt_ceil_iff _ _ _ hn).1 hk
    constructor
    · intro h
      have := congrArg List.length h
      simp at this
      omega
    · simp
  · intro k p hk hp
    have hk1 : k < (chunksOf addresses n).length := by omega
    rw [chunksOf_get _ _ _ hk1] at hp
    rw [chunksOf_length] at hk
    have hlt := (lt_ceil_iff _ _ _ hn).1 hk
    have hkk : (k + 1) * n = k * n + n := by ring
    cases hp
    simp
    omega
  · have h := join_chunks addresses n ((addresses.length + n - 1) / n)
    have hge : addresses.length ≤ (addresses.length + n - 1) / n * n := by
      have := (lt_ceil_iff addresses.length n ((addresses.length + n - 1) / n) hn).not.1
        (lt_irrefl _)
      omega
    rw [List.take_of_length_le hge] at h
    have hm : (chunksOf addresses n).map Prod.snd
        = (List.range ((addresses.length + n - 1) / n)).map
            (fun k => (addresses.drop (k * n)).take n) := by
      simp [chunksOf, Function.comp_def]
    rw [hm]; exact h

theorem splitLoop_chunks_witness :
    (1 ≤ 2 ∧ ((["192.0.2.1", "192.0.2.2", "192.0.2.3"].length : Nat) : Int) + ((2 : Nat) : Int) - 1
        ≤ maxInt) ∧
    ∃ chunks : List (Int × List String),
      splitLoop ["192.0.2.1", "192.0.2.2", "192.0.2.3"] ((2 : Nat) : Int) collect [] = some chunks ∧
      chunks.length = 2 :=
  ⟨⟨by decide, by decide⟩,
    (splitLoop_chunks ["192.0.2.1", "192.0.2.2", "192.0.2.3"] 2 (by decide) (by decide)).imp
      (fun _ h => ⟨h.1, by
        have h3 := h.2.2.1
        have h4 : numGroups 3 ((2 : Nat) : Int) = some 2 := by decide
        simp only [List.length_cons, List.length_nil] at h3
        rw [h4] at h3
        exact_mod_cast (Option.some.inj h3).symm⟩)⟩

theorem splitLoop_chunks_overflow :
    splitLoop ["192.0.2.1", "192.0.2.2"] maxInt collect [] = some [(0, ["192.0.2.1", "192.0.2.2"])] ∧
    numGroups ["192.0.2.1", "192.0.2.2"].length maxInt = some (-1) ∧
    1 ≤ maxInt := by
  decide

/-! ## strconv.Itoa is injective -/

theorem digitChar_inj (d e : Nat) (hd : d < 10) (he : e < 10) (h : digitChar d = digitChar e) :
    d = e := by
  interval_cases d <;> interval_cases e <;> first | rfl | (exact absurd h (by decide))

theorem digitChar_ne_minus (d : Nat) (hd : d < 10) : digitChar d ≠ '-' := by
  interval_cases d <;> decide

theorem natDigits_unfold (f n : Nat) :
    natDigits (f + 1) n
      = if n < 10 then [digitChar n] else natDigits f (n / 10) ++ [digitChar (n % 10)] := rfl

theorem natDigits_ne_nil : ∀ (f n : Nat), n < f → natDigits f n ≠ []
  | 0, _, h => absurd h (Nat.not_lt_zero _)
  | f + 1, n, _ => by
    rw [natDigits_unfold]
    split_ifs <;> simp

theorem natDigits_chars : ∀ (f n : Nat) (c : Char), c ∈ natDigits f n → ∃ d, d < 10 ∧ c = digitChar d
  | 0, _, c, h => by simp [natDigits] at h
  | f + 1, n, c, h => by
    rw [natDigits_unfold] at h
    split_ifs at h with hlt
    · exact ⟨n, hlt, by simpa using h⟩
    · rcases List.mem_append.1 h with h | h
      · exact natDigits_chars f (n / 10) c h
      · exact ⟨n % 10, Nat.mod_lt _ (by decide), by simpa using h⟩

theorem natDigits_inj : ∀ (f g n m : Nat), n < f → m < g → natDigits f n = natDigits g m → n = m
  | 0, _, _, _, h, _, _ => absurd h (Nat.not_lt_zero _)
  | _ + 1, 0, _, _, _, h, _ => absurd h (Nat.not_lt_zero _)
  | f + 1, g + 1, n, m, hn, hm, h => by
    rw [natDigits_unfold, natDigits_unfold] at h
    split_ifs at h with h1 h2 h2
    · exact digitChar_inj n m h1 h2 (by simpa using h)
    · exfalso
      have hl := congrArg List.length h
      have hne := natDigits_ne_nil g (m / 10) (by omega)
      have : 0 < (natDigits g (m / 10)).length := List.length_pos.2 hne
      rw [List.length_append, List.length_singleton, List.length_singleton] at hl
      omega
    · exfalso
      have hl := congrArg List.length h
      have hne := natDigits_ne_nil f (n / 10) (by omega)
      have : 0 < (natDigits f (n / 10)).length := List.length_pos.2 hne
      rw [List.length_append, List.length_singleton, List.length_singleton] at hl
      omega
    · have h3 := List.append_inj' h rfl
      have h4 := natDigits_inj f g (n / 10) (m / 10) (by omega) (by omega) h3.1
      have h5 := digitChar_inj (n % 10) (m % 10) (Nat.mod_lt _ (by decide))
        (Nat.mod_lt _ (by decide)) (by simpa using h3.2)
      omega

theorem itoa_inj (a b : Int) (h : itoa a = itoa b) : a = b := by
  unfold itoa at h
  split_ifs at h with ha hb hb
  · have h1 := congrArg String.data h
    simp only [List.cons.injEq, true_and] at h1
    have := natDigits_inj _ _ _ _ (Nat.lt_succ_self _) (Nat.lt_succ_self _) h1
    omega
  · exfalso
    have h1 := congrArg String.data h
    simp only at h1
    have hmem : '-' ∈ natDigits (b.natAbs + 1) b.natAbs := by rw [← h1]; simp
    obtain ⟨d, hd, he⟩ := natDigits_chars _ _ _ hmem
    exact digitChar_ne_minus d hd he.symm
  · exfalso
    have h1 := congrArg String.data h
    simp only at h1
    have hmem : '-' ∈ natDigits (a.natAbs + 1) a.natAbs := by rw [h1]; simp
    obtain ⟨d, hd, he⟩ := natDigits_chars _ _ _ hmem
    exact digitChar_ne_minus d hd he.symm
  · have h1 := congrArg String.data h
    simp only at h1
    have := natDigits_inj _ _ _ _ (Nat.lt_succ_self _) (Nat.lt_succ_self _) h1
    omega

theorem groupName_inj (ipv6 : Bool) (a b : Int) (h : groupName ipv6 a = groupName ipv6 b) :
    a = b := by
  unfold groupName at h
  have h1 := congrArg String.data h
  simp only [String.data_append] at h1
  exact itoa_inj a b (String.ext (List.append_cancel_left h1))

/-! ## Go maps -/

theorem goLookup_filter {α : Type} (m : GoMap α) (k k1 : String) :
    goLookup (m.filter (fun p => decide (p.1 ≠ k))) k1
      = if k1 = k then none else goLookup m k1 := by
  induction m with
  | nil => simp [goLookup]
  | cons p t ih =>
    obtain ⟨a, v⟩ := p
    by_cases ha : a = k
    · subst ha
      simp only [List.filter, ne_eq, not_true_eq_false, decide_False]
      rw [ih]
      by_cases hk : k1 = a
      · simp [hk]
      · have : ¬ a = k1 := fun h => hk h.symm
        simp [hk, goLookup, this]
    · simp only [List.filter, ne_eq, ha, not_false_eq_true, decide_True, goLookup]
      rw [ih]
      by_cases hk : k1 = k
      · subst hk; simp [ha]
      · simp [hk]

theorem goLookup_goSet_same {α : Type} (m : GoMap α) (k : String) (v : α) :
    goLookup (goSet m k v) k = some v := by
  simp [goSet, goLookup]

theorem goLookup_goSet_ne {α : Type} (m : GoMap α) (k k1 : String) (v : α) (h : k1 ≠ k) :
    goLookup (goSet m k v) k1 = goLookup m k1 := by
  have h2 : ¬ k = k1 := fun e => h e.symm
  simp only [goSet, goLookup, h2, if_false]
  rw [goLookup_filter, if_neg h]

theorem mem_goKeys_iff {α : Type} (m : GoMap α) (k : String) :
    k ∈ goKeys m ↔ goLookup m k ≠ none := by
  induction m with
  | nil => simp [goKeys, goLookup]
  | cons p t ih =>
    obtain ⟨a, v⟩ := p
    by_cases ha : a = k
    · simp [goKeys, goLookup, ha]
    · have h2 : ¬ k = a := fun e => ha e.symm
      simp only [goKeys, List.map_cons, List.mem_cons, h2, false_or, goLookup, ha, if_false]
      exact ih

theorem goDelete_of_not_mem {α : Type} (m : GoMap α) (k : String) (h : k ∉ goKeys m) :
    goDelete m k = m := by
  unfold goDelete
  rw [List.filter_eq_self]
  intro p hp
  have : p.1 ≠ k := by
    intro e
    apply h
    rw [← e]
    exact List.mem_map_of_mem Prod.fst hp
  simpa using this

theorem goKeys_goSet {α : Type} (m : GoMap α) (k : String) (v : α) :
    goKeys (goSet m k v) = k :: (goKeys m).filter (fun a => decide (a ≠ k)) := by
  simp only [goKeys, goSet, List.map_cons, List.cons.injEq, true_and]
  rw [List.filter_map]; rfl

theorem goKeys_goDelete {α : Type} (m : GoMap α) (k : String) :
    goKeys (goDelete m k) = (goKeys m).filter (fun a => decide (a ≠ k)) := by
  simp only [goKeys, goDelete]
  rw [List.filter_map]; rfl

theorem count_goKeys_goSet {α : Type} (m : GoMap α) (k : String) (v : α) :
    (goKeys (goSet m k v)).count k = 1 := by
  rw [goKeys_goSet, List.count_cons_self]
  have : k ∉ (goKeys m).filter (fun a => decide (a ≠ k)) := by simp
  rw [List.count_eq_zero_of_not_mem this]

theorem nodup_goKeys_goSet {α : Type} (m : GoMap α) (k : String) (v : α)
    (h : (goKeys m).Nodup) : (goKeys (goSet m k v)).Nodup := by
  rw [goKeys_goSet, List.nodup_cons]
  exact ⟨by simp, h.filter _⟩

theorem nodup_goKeys_goDelete {α : Type} (m : GoMap α) (k : String)
    (h : (goKeys m).Nodup) : (goKeys (goDelete m k)).Nodup := by
  rw [goKeys_goDelete]; exact h.filter _

theorem goIndex_true_mem (m : GoMap Bool) (k : String) (h : goIndex m k = true) :
    k ∈ goKeys m := by
  rw [mem_goKeys_iff]
  intro hn
  simp [goIndex, hn] at h

/-! ## The address cache -/

theorem cacheOf_true (mal : unifiAddrList) : cacheOf true mal = mal.cacheIpv6 := rfl

theorem cacheOf_false (mal : unifiAddrList) : cacheOf false mal = mal.cacheIpv4 := rfl

theorem add_fixed (cfg : Config) (mal : unifiAddrList) (d : Decision)
    (h : goIndex (cacheOf (containsColon d.value) mal) d.value = true) : add cfg mal d = mal := by
  unfold add
  by_cases hc : containsColon d.value = true
  · rw [hc, cacheOf_true] at h
    simp [hc, h]
  · simp only [Bool.not_eq_true] at hc
    rw [hc, cacheOf_false] at h
    simp [hc, h]

theorem remove_fixed (cfg : Config) (mal : unifiAddrList) (d : Decision)
    (h : goIndex (cacheOf (containsColon d.value) mal) d.value = false) :
    remove cfg mal d = mal := by
  unfold remove
  by_cases hc : containsColon d.value = true
  · rw [hc, cacheOf_true] at h
    simp [hc, h]
  · simp only [Bool.not_eq_true] at hc
    rw [hc, cacheOf_false] at h
    simp [hc, h]

theorem goIndex_goSet_same (m : GoMap Bool) (k : String) : goIndex (goSet m k true) k = true := by
  simp [goIndex, goLookup_goSet_same]

theorem add_present (cfg : Config) (mal : unifiAddrList) (d : Decision) (hban : d.type = "ban")
    (hv6 : containsColon d.value = true → cfg.useIPV6 = true) :
    goIndex (cacheOf (containsColon d.value) (add cfg mal d)) d.value = true := by
  unfold add
  by_cases hc : containsColon d.value = true
  · have hu := hv6 hc
    by_cases hi : goIndex mal.cacheIpv6 d.value = true
    · simp [hban, hc, hu, hi, cacheOf]
    · simp [hban, hc, hu, hi, cacheOf, goIndex_goSet_same]
  · simp only [Bool.not_eq_true] at hc
    by_cases hi : goIndex mal.cacheIpv4 d.value = true
    · simp [hban, hc, hi, cacheOf]
    · simp [hban, hc, hi, cacheOf, goIndex_goSet_same]

/-- C3: for every state and every ban decision (IPv6 enabled when the address contains a colon),
a second `add` of the same address changes nothing, after the first `add` the address is in the
cache of its family exactly once (the keys of a map being distinct), and `remove` of an address
that is not in the cache leaves the whole state, hence both address caches and the `modified`
flag, unchanged. -/
theorem add_twice_remove_absent (cfg : Config) (mal : unifiAddrList) (d : Decision)
    (hban : d.type = "ban") (hv6 : containsColon d.value = true → cfg.useIPV6 = true)
    (hnd : (goKeys (cacheOf (containsColon d.value) mal)).Nodup) :
    add cfg (add cfg mal d) d = add cfg mal d ∧
    goIndex (cacheOf (containsColon d.value) (add cfg mal d)) d.value = true ∧
    (goKeys (cacheOf (containsColon d.value) (add cfg mal d))).count d.value = 1 ∧
    (goIndex (cacheOf (containsColon d.value) mal) d.value = false → remove cfg mal d = mal) := by
  refine ⟨add_fixed cfg _ d (add_present cfg mal d hban hv6), add_present cfg mal d hban hv6,
    ?_, remove_fixed cfg mal d⟩
  by_cases hi : goIndex (cacheOf (containsColon d.value) mal) d.value = true
  · rw [add_fixed cfg mal d hi]
    exact List.count_eq_one_of_mem hnd (goIndex_true_mem _ _ hi)
  · unfold add
    by_cases hc : containsColon d.value = true
    · have hu := hv6 hc
      rw [hc, cacheOf_true] at hi
      simp [hban, hc, hu, hi, cacheOf, count_goKeys_goSet]
    · simp only [Bool.not_eq_true] at hc
      rw [hc, cacheOf_false] at hi
      simp [hban, hc, hi, cacheOf, count_goKeys_goSet]

theorem add_twice_remove_absent_witness :
    (("ban" : String) = "ban" ∧
      (goKeys (cacheOf (containsColon "203.0.113.5") emptyList)).Nodup) ∧
    add ⟨2, false, [], []⟩ (add ⟨2, false, [], []⟩ emptyList ⟨"ban", "203.0.113.5"⟩)
        ⟨"ban", "203.0.113.5"⟩
      = add ⟨2, false, [], []⟩ emptyList ⟨"ban", "203.0.113.5"⟩ :=
  ⟨⟨rfl, by decide⟩,
    (add_twice_remove_absent ⟨2, false, [], []⟩ emptyList ⟨"ban", "203.0.113.5"⟩ rfl
      (by decide) (by decide)).1⟩

theorem foldl_cacheIpv6 (cfg : Config) (f : Config → unifiAddrList → Decision → unifiAddrList)
    (hf : ∀ mal d, (f cfg mal d).cacheIpv6 = mal.cacheIpv6) (l : List Decision)
    (mal : unifiAddrList) : (l.foldl (f cfg) mal).cacheIpv6 = mal.cacheIpv6 := by
  induction l generalizing mal with
  | nil => rfl
  | cons d t ih => rw [List.foldl_cons, ih, hf]

/-- C10: a decision whose type is not "ban", or whose value contains a colon while IPv6 support
is disabled, is ignored by `add` and by `remove`: the state, hence the IPv4 cache, the IPv6 cache
and the `modified` flag, is unchanged; and with IPv6 disabled `decisionProcess` leaves the IPv6
cache unchanged on every batch. -/
theorem ignored_decisions (cfg : Config) (mal : unifiAddrList) :
    (∀ d : Decision, (d.type ≠ "ban" ∨ (containsColon d.value = true ∧ cfg.useIPV6 = false)) →
      add cfg mal d = mal ∧ remove cfg mal d = mal) ∧
    (cfg.useIPV6 = false → ∀ batch : DecisionsStreamResponse,
      (decisionProcess cfg mal batch).cacheIpv6 = mal.cacheIpv6) := by
  constructor
  · intro d h
    rcases h with h | ⟨h1, h2⟩
    · simp [add, remove, h]
    · simp [add, remove, h1, h2]
  · intro hu batch
    unfold decisionProcess
    rw [foldl_cacheIpv6 cfg add, foldl_cacheIpv6 cfg remove]
    · intro m d
      unfold remove
      split_ifs <;> rfl
    · intro m d
      unfold add
      split_ifs <;> rfl

theorem ignored_decisions_witness :
    ((("captcha" : String) ≠ "ban" ∨
        (containsColon "203.0.113.5" = true ∧ (false : Bool) = false)) ∧
      (false : Bool) = false) ∧
    add ⟨2, false, [], []⟩ emptyList ⟨"captcha", "203.0.113.5"⟩ = emptyList ∧
    (decisionProcess ⟨2, false, [], []⟩ emptyList
      ⟨[], [⟨"ban", "2001:db8::1"⟩, ⟨"ban", "203.0.113.5"⟩]⟩).cacheIpv6 = emptyList.cacheIpv6 :=
  ⟨⟨Or.inl (by decide), rfl⟩,
    ((ignored_decisions ⟨2, false, [], []⟩ emptyList).1 ⟨"captcha", "203.0.113.5"⟩
      (Or.inl (by decide))).1,
    (ignored_decisions ⟨2, false, [], []⟩ emptyList).2 rfl _⟩

/-! ## The event loop -/

theorem updateFirewall_skip (cfg : Config) (rt : Runtime) (fuel : Nat) (w : World)
    (h : w.mal.modified = false) : updateFirewall cfg rt fuel w = some w := by
  simp [updateFirewall, h]

/-- C2: after one inactivity-timer fire (`updateFirewall` followed by `modified = false`), a
second timer fire with no decision batch in between finds `modified` false and skips the whole
pass: whatever the controller would answer, `updateFirewall` returns the state it was given, so
no remote call is recorded and every cache map is unchanged. -/
theorem second_timer_fire_skips (cfg : Config) (rt : Runtime) (fuel : Nat) (w w1 : World)
    (h : onTimer cfg rt fuel w = some w1) :
    w1.mal.modified = false ∧
    ∀ (rt2 : Runtime) (fuel2 : Nat),
      updateFirewall cfg rt2 fuel2 w1 = some w1 ∧ onTimer cfg rt2 fuel2 w1 = some w1 := by
  have hm : w1.mal.modified = false := by
    unfold onTimer at h
    split at h
    · cases h
    · cases h; rfl
  refine ⟨hm, fun rt2 fuel2 => ?_⟩
  have hu := updateFirewall_skip cfg rt2 fuel2 w1 hm
  refine ⟨hu, ?_⟩
  unfold onTimer
  rw [hu]
  simp only
  congr 1
  cases w1 with
  | mk mal calls =>
    cases mal
    simp only at hm
    simp [hm]

/-! ## Per-family fields -/

theorem rulesOf_setRules (f : Bool) (mal : unifiAddrList) (m : GoMap FirewallRuleCache) :
    rulesOf f (setRules f mal m) = m := by cases f <;> rfl

theorem rulesOf_setGroups (f : Bool) (mal : unifiAddrList) (m : GoMap String) :
    rulesOf f (setGroups f mal m) = rulesOf f mal := by cases f <;> rfl

theorem zone_setGroups (f : Bool) (mal : unifiAddrList) (m : GoMap String) :
    (setGroups f mal m).isZoneBased = mal.isZoneBased := by cases f <;> rfl

/-! ## The split loop leaves the stale indices alone -/

theorem deleteLoop_stop (rt : Runtime) (f : Bool) (fuel : Nat) (i : Int) (w : World)
    (h : goLookup (rulesOf f w.mal) (groupName f i) = none) :
    deleteLoop rt f (fuel + 1) i w = some w := by
  rw [deleteLoop, h]

/-- More fuel does not change the result of a scan that completed. -/
theorem deleteLoop_mono (rt : Runtime) (f : Bool) :
    ∀ (fuel fuel1 : Nat) (i : Int) (w w1 : World), fuel ≤ fuel1 →
      deleteLoop rt f fuel i w = some w1 → deleteLoop rt f fuel1 i w = some w1
  | 0, _, _, _, _, _, h => by simp [deleteLoop] at h
  | fuel + 1, 0, _, _, _, hle, _ => absurd hle (by omega)
  | fuel + 1, fuel1 + 1, i, w, w1, hle, h => by
    rw [deleteLoop] at h ⊢
    split at h
    · exact h
    · exact deleteLoop_mono rt f fuel fuel1 _ _ w1 (by omega) h

/-- More fuel does not change the result of a pass that completed. -/
theorem updateFirewall_mono (cfg : Config) (rt : Runtime) (fuel fuel1 : Nat) (w w1 : World)
    (hle : fuel ≤ fuel1) (h : updateFirewall cfg rt fuel w = some w1) :
    updateFirewall cfg rt fuel1 w = some w1 := by
  have hfam : ∀ (f : Bool) (u u1 : World), updateFamily cfg rt f fuel u = some u1 →
      updateFamily cfg rt f fuel1 u = some u1 := by
    intro f u u1 hu
    unfold updateFamily at hu ⊢
    split at hu
    · cases hu
    · split at hu
      · cases hu
      · exact deleteLoop_mono rt f fuel fuel1 _ _ u1 hle hu
  unfold updateFirewall at h ⊢
  split_ifs at h ⊢ with hm
  · exact h
  · split at h
    · cases h
    · next u hu =>
      rw [hfam false w u hu]
      exact hfam true u w1 h

theorem countP_lt_of_witness {α : Type} (p q : α → Bool) (l : List α)
    (hpq : ∀ x ∈ l, p x = true → q x = true) (x : α) (hx : x ∈ l) (hq : q x = true)
    (hp : p x = false) : l.countP p < l.countP q := by
  induction l with
  | nil => cases hx
  | cons a t ih =>
    rw [List.countP_cons, List.countP_cons]
    have hle : t.countP p ≤ t.countP q :=
      List.countP_mono_left (fun y hy h => hpq y (List.mem_cons_of_mem _ hy) h)
    rcases List.mem_cons.1 hx with h | h
    · subst h
      simp only [hq, hp, if_true]
      simp
      omega
    · have := ih (fun y hy h => hpq y (List.mem_cons_of_mem _ hy) h) h
      have hpa := hpq a (List.mem_cons_self _ _)
      by_cases ha : p a = true
      · simp [ha, hpa ha]; omega
      · by_cases hb : q a = true
        · simp [ha, hb]; omega
        · simp [ha, hb]; omega

theorem goLookup_some_mem {α : Type} (m : GoMap α) (k : String) (v : α)
    (h : goLookup m k = some v) : ∃ e ∈ m, e.1 = k := by
  have hk : k ∈ goKeys m := (mem_goKeys_iff m k).2 (by rw [h]; simp)
  obtain ⟨e, he, rfl⟩ := List.mem_map.1 hk
  exact ⟨e, he, rfl⟩

theorem rules_after_delete (rt : Runtime) (f : Bool) (name : String) (rc : FirewallRuleCache)
    (w : World) :
    rulesOf f (deleteGroupStep rt f name rc (deleteRuleStep rt f name rc w)).mal
        = rulesOf f w.mal ∨
    rulesOf f (deleteGroupStep rt f name rc (deleteRuleStep rt f name rc w)).mal
        = goDelete (rulesOf f w.mal) name := by
  unfold deleteGroupStep deleteRuleStep
  cases rt.respond w.calls (Call.DeleteFirewallRule rc.id) <;>
    simp only <;>
    split <;> simp [rulesOf_setGroups, rulesOf_setRules]

/-- The deletion scan ends: started at a Go `int` on a rule cache with fewer than `2^64` entries
it returns, and fuel above the number of entries suffices. -/
theorem deleteLoop_terminates (rt : Runtime) (f : Bool) :
    ∀ (fuel : Nat) (i : Int) (w : World) (r : Nat),
      -9223372036854775808 ≤ i → i < 9223372036854775808 → r ≤ 18446744073709551616 →
      aheadCount f (rulesOf f w.mal) i r < r → aheadCount f (rulesOf f w.mal) i r < fuel →
      ∃ w1, deleteLoop rt f fuel i w = some w1
  | 0, _, _, _, _, _, _, _, h => absurd h (Nat.not_lt_zero _)
  | fuel + 1, i, w, r, hi1, hi2, hr, hlt, hf => by
    rw [deleteLoop]
    cases hl : goLookup (rulesOf f w.mal) (groupName f i) with
    | none => exact ⟨w, rfl⟩
    | some rc =>
      simp only
      have hdec : aheadCount f
          (rulesOf f (deleteGroupStep rt f (groupName f i) rc
            (deleteRuleStep rt f (groupName f i) rc w)).mal) (wrap (i + 1)) (r - 1)
          < aheadCount f (rulesOf f w.mal) i r := by
        obtain ⟨e0, he0, hk0⟩ := goLookup_some_mem _ _ _ hl
        have hstep : ∀ e : String × FirewallRuleCache,
            (∃ t : Nat, t < r - 1 ∧ e.1 = groupName f (wrap (wrap (i + 1) + (t : Int)))) →
            (∃ t : Nat, t < r ∧ e.1 = groupName f (wrap (i + (t : Int)))) ∧
              e.1 ≠ groupName f i := by
          rintro e ⟨t, ht, he⟩
          have hw : wrap (wrap (i + 1) + (t : Int)) = wrap (i + ((t + 1 : Nat) : Int)) := by
            unfold wrap; push_cast; omega
          rw [hw] at he
          refine ⟨⟨t + 1, by omega, he⟩, ?_⟩
          intro hcon
          rw [hcon] at he
          have := groupName_inj _ _ _ he
          unfold wrap at this
          push_cast at this
          omega
        have h00 : ∃ t : Nat, t < r ∧ e0.1 = groupName f (wrap (i + (t : Int))) := by
          refine ⟨0, by omega, ?_⟩
          rw [hk0]
          congr 1
          unfold wrap; push_cast; omega
        have hmain : (rulesOf f w.mal).countP
              (fun e => decide (∃ t : Nat, t < r - 1 ∧
                e.1 = groupName f (wrap (wrap (i + 1) + (t : Int)))))
            < aheadCount f (rulesOf f w.mal) i r := by
          unfold aheadCount
          apply countP_lt_of_witness _ _ _ _ e0 he0
          · simpa using h00
          · simp only [decide_eq_false_iff_not]
            intro hcon
            exact (hstep e0 hcon).2 hk0
          · intro x _ hx
            simp only [decide_eq_true_eq] at hx ⊢
            exact (hstep x hx).1
        rcases rules_after_delete rt f (groupName f i) rc w with h | h
        · rw [h]; exact hmain
        · rw [h]
          refine lt_of_le_of_lt ?_ hmain
          unfold aheadCount goDelete
          exact List.Sublist.countP_le _ (List.filter_sublist _)
      have hi3 : -9223372036854775808 ≤ wrap (i + 1) ∧ wrap (i + 1) < 9223372036854775808 := by
        unfold wrap; omega
      exact deleteLoop_terminates rt f fuel (wrap (i + 1)) _ (r - 1) hi3.1 hi3.2 (by omega)
        (by omega) (by omega)

theorem deleteLoop_returns (rt : Runtime) (f : Bool) (i : Int) (w : World) (fuel : Nat)
    (hi1 : -9223372036854775808 ≤ i) (hi2 : i < 9223372036854775808)
    (hlen : (rulesOf f w.mal).length < 18446744073709551616)
    (hfuel : (rulesOf f w.mal).length < fuel) :
    ∃ w1, deleteLoop rt f fuel i w = some w1 := by
  have hle : aheadCount f (rulesOf f w.mal) i 18446744073709551616 ≤ (rulesOf f w.mal).length :=
    List.countP_le_length _
  exact deleteLoop_terminates rt f fuel i w 18446744073709551616 hi1 hi2 (le_refl _)
    (by omega) (by omega)

theorem second_timer_fire_skips_witness :
    ∃ w1 : World, onTimer sampleConfig okRuntime 3 ⟨shrunkList, []⟩ = some w1 ∧
      w1.mal.modified = false ∧ onTimer sampleConfig okRuntime 3 w1 = some w1 := by
  have h : (onTimer sampleConfig okRuntime 3 ⟨shrunkList, []⟩).isSome = true := by decide
  obtain ⟨w1, h1⟩ := Option.isSome_iff_exists.1 h
  have h2 := second_timer_fire_skips sampleConfig okRuntime 3 ⟨shrunkList, []⟩ w1 h1
  exact ⟨w1, h1, h2.1, (h2.2 okRuntime 3).2⟩

/-! ## Zone policies -/

theorem policies_setGroups (f : Bool) (mal : unifiAddrList) (m : GoMap String) :
    (setGroups f mal m).firewallZonePolicyIPv4 = mal.firewallZonePolicyIPv4 := by
  cases f <;> rfl

theorem postGroupStep_policies (rt : Runtime) (f : Bool) (w : World) (idx : Int)
    (group : List String) :
    (postGroupStep rt f w idx group).2.mal.firewallZonePolicyIPv4 = w.mal.firewallZonePolicyIPv4 ∧
    (postGroupStep rt f w idx group).2.mal.isZoneBased = w.mal.isZoneBased := by
  unfold postGroupStep postFirewallGroup
  simp only
  split
  · exact ⟨rfl, rfl⟩
  · exact ⟨policies_setGroups _ _ _, zone_setGroups _ _ _⟩

theorem zonePolicyStep_calls (rt : Runtime) (idx : Int) (groupID : String) (w : World)
    (zoneSrc zoneDst : String) :
    (zonePolicyStep rt idx groupID w zoneSrc zoneDst).calls
      = w.calls ++
        (if policyDue w.mal.firewallZonePolicyIPv4 idx groupID (zoneSrc, zoneDst) = true then
          [policyCall w.mal.firewallZonePolicyIPv4 idx groupID (zoneSrc, zoneDst)] else []) := by
  unfold zonePolicyStep policyDue
  simp only [decide_eq_true_eq]
  split_ifs with h
  · unfold postFirewallPolicy policyCall
    simp only
    split <;> rfl
  · simp

theorem zonePolicyStep_skip (rt : Runtime) (idx : Int) (groupID : String) (w : World)
    (zoneSrc zoneDst : String)
    (h : policyDue w.mal.firewallZonePolicyIPv4 idx groupID (zoneSrc, zoneDst) = false) :
    zonePolicyStep rt idx groupID w zoneSrc zoneDst = w := by
  unfold policyDue at h
  simp only [decide_eq_false_iff_not] at h
  unfold zonePolicyStep
  simp only
  rw [if_neg h]

theorem zonePolicyStep_lookup (rt : Runtime) (idx : Int) (groupID : String) (w : World)
    (zoneSrc zoneDst s : String) (hs : s ≠ policyName false zoneSrc zoneDst idx) :
    goLookup (zonePolicyStep rt idx groupID w zoneSrc zoneDst).mal.firewallZonePolicyIPv4 s
      = goLookup w.mal.firewallZonePolicyIPv4 s := by
  unfold zonePolicyStep
  simp only
  split_ifs
  · unfold postFirewallPolicy
    simp only
    split
    · rfl
    · exact goLookup_goSet_ne _ _ _ _ hs
  · rfl

theorem policy_congr (pol1 pol2 : GoMap FirewallZonePolicyCache) (idx : Int) (groupID : String)
    (p : String × String)
    (h : goLookup pol1 (policyName false p.1 p.2 idx) = goLookup pol2 (policyName false p.1 p.2 idx)) :
    policyDue pol1 idx groupID p = policyDue pol2 idx groupID p ∧
    policyCall pol1 idx groupID p = policyCall pol2 idx groupID p := by
  unfold policyDue policyCall
  rw [h]
  exact ⟨rfl, rfl⟩

theorem zonePolicyLoop_eq (cfg : Config) (rt : Runtime) (idx : Int) (groupID : String)
    (w : World) :
    zonePolicyLoop cfg rt idx groupID w
      = (zonePairs cfg).foldl (fun w1 p => zonePolicyStep rt idx groupID w1 p.1 p.2) w := by
  unfold zonePolicyLoop zonePairs
  generalize cfg.unifiZoneSrc = srcs
  induction srcs generalizing w with
  | nil => rfl
  | cons s t ih =>
    rw [List.foldl_cons, ih, List.flatMap_cons, List.foldl_append, List.foldl_map]

theorem zonePairs_length (cfg : Config) :
    (zonePairs cfg).length = cfg.unifiZoneSrc.length * cfg.unifiZoneDst.length := by
  unfold zonePairs
  generalize cfg.unifiZoneSrc = srcs
  induction srcs with
  | nil => simp
  | cons s t ih =>
    rw [List.flatMap_cons, List.length_append, ih, List.length_map, List.length_cons]
    ring

theorem pairs_foldl_calls (rt : Runtime) (idx : Int) (groupID : String)
    (l : List (String × String))
    (hnd : (l.map (fun p => policyName false p.1 p.2 idx)).Nodup) (w : World) :
    (l.foldl (fun w1 p => zonePolicyStep rt idx groupID w1 p.1 p.2) w).calls
      = w.calls ++
        (l.filter (policyDue w.mal.firewallZonePolicyIPv4 idx groupID)).map
          (policyCall w.mal.firewallZonePolicyIPv4 idx groupID) := by
  induction l generalizing w with
  | nil => simp
  | cons p t ih =>
    rw [List.map_cons, List.nodup_cons] at hnd
    rw [List.foldl_cons, ih hnd.2, zonePolicyStep_calls]
    have hc : ∀ q ∈ t,
        policyDue (zonePolicyStep rt idx groupID w p.1 p.2).mal.firewallZonePolicyIPv4 idx groupID q
          = policyDue w.mal.firewallZonePolicyIPv4 idx groupID q ∧
        policyCall (zonePolicyStep rt idx groupID w p.1 p.2).mal.firewallZonePolicyIPv4 idx groupID q
          = policyCall w.mal.firewallZonePolicyIPv4 idx groupID q := by
      intro q hq
      apply policy_congr
      apply zonePolicyStep_lookup
      intro e
      have hmem : policyName false q.1 q.2 idx
          ∈ t.map (fun p => policyName false p.1 p.2 idx) := List.mem_map.2 ⟨q, hq, rfl⟩
      rw [e] at hmem
      exact hnd.1 hmem
    have hf : t.filter
          (policyDue (zonePolicyStep rt idx groupID w p.1 p.2).mal.firewallZonePolicyIPv4 idx groupID)
        = t.filter (policyDue w.mal.firewallZonePolicyIPv4 idx groupID) :=
      List.filter_congr (fun q hq => (hc q hq).1)
    have hm : (t.filter (policyDue w.mal.firewallZonePolicyIPv4 idx groupID)).map
          (policyCall (zonePolicyStep rt idx groupID w p.1 p.2).mal.firewallZonePolicyIPv4 idx groupID)
        = (t.filter (policyDue w.mal.firewallZonePolicyIPv4 idx groupID)).map
          (policyCall w.mal.firewallZonePolicyIPv4 idx groupID) :=
      List.map_congr_left (fun q hq => (hc q (List.mem_of_mem_filter hq)).2)
    rw [hf, hm, List.filter_cons]
    by_cases hd : policyDue w.mal.firewallZonePolicyIPv4 idx groupID p = true
    · simp [hd]
    · simp [hd]

theorem pairs_foldl_skip (rt : Runtime) (idx : Int) (groupID : String)
    (l : List (String × String)) (w : World)
    (h : ∀ p ∈ l, policyDue w.mal.firewallZonePolicyIPv4 idx groupID p = false) :
    l.foldl (fun w1 p => zonePolicyStep rt idx groupID w1 p.1 p.2) w = w := by
  induction l with
  | nil => rfl
  | cons p t ih =>
    rw [List.foldl_cons, zonePolicyStep_skip rt idx groupID w p.1 p.2 (h p (List.mem_cons_self _ _))]
    exact ih (fun q hq => h q (List.mem_cons_of_mem _ hq))

theorem policyCall_groupId (pol : GoMap FirewallZonePolicyCache) (idx : Int) (groupID : String)
    (p : String × String) : Call.policyGroupId (policyCall pol idx groupID p) = some groupID := by
  unfold policyCall
  split_ifs <;> rfl

theorem chunkBodyIPv4_zone (cfg : Config) (rt : Runtime) (w : World) (idx : Int)
    (group : List String) (hz : w.mal.isZoneBased = true) :
    chunkBodyIPv4 cfg rt w idx group
      = (zonePairs cfg).foldl
          (fun w1 p => zonePolicyStep rt idx (postGroupStep rt false w idx group).1 w1 p.1 p.2)
          (postGroupStep rt false w idx group).2 := by
  unfold chunkBodyIPv4
  simp only [(postGroupStep_policies rt false w idx group).2, hz, if_true]
  exact zonePolicyLoop_eq cfg rt idx _ _

/-- C5 (amended): in zone mode, for every list of source zones, every list of destination zones
and every chunk (index `idx`, members `group`) the split loop of `updateFirewall` processes, with
`g` the group id the upsert of the chunk returns: the step for a (source, destination) pair posts
a zone policy if and only if `g` is non-empty and differs from the group id cached, when the pair
is looked up, under `cs-unifi-bouncer-ipv4-<src>-><dst>-<idx>`, and a post carries `g`; when the
policy names of the pairs are pairwise distinct the posts of the chunk are those of the pairs for
which this holds in the cache the pass started the chunk with; hence, with distinct names, a
non-empty `g` and no cached policy, exactly `|src| x |dst|` policies are posted, and, with every
cached group id equal to `g`, none is posted and the state is the one after the group upsert. -/
theorem zone_policy_posts (cfg : Config) (rt : Runtime) (w : World) (idx : Int)
    (group : List String) (hz : w.mal.isZoneBased = true) :
    (∀ (w2 : World) (zoneSrc zoneDst : String),
      (zonePolicyStep rt idx (postGroupStep rt false w idx group).1 w2 zoneSrc zoneDst).calls
        = w2.calls ++
          (if policyDue w2.mal.firewallZonePolicyIPv4 idx (postGroupStep rt false w idx group).1
              (zoneSrc, zoneDst) = true then
            [policyCall w2.mal.firewallZonePolicyIPv4 idx (postGroupStep rt false w idx group).1
              (zoneSrc, zoneDst)]
          else [])) ∧
    (∀ (pol : GoMap FirewallZonePolicyCache) (p : String × String),
      Call.policyGroupId (policyCall pol idx (postGroupStep rt false w idx group).1 p)
        = some (postGroupStep rt false w idx group).1) ∧
    (((zonePairs cfg).map (fun p => policyName false p.1 p.2 idx)).Nodup →
      (chunkBodyIPv4 cfg rt w idx group).calls
        = (postGroupStep rt false w idx group).2.calls ++
          ((zonePairs cfg).filter
            (policyDue w.mal.firewallZonePolicyIPv4 idx (postGroupStep rt false w idx group).1)).map
            (policyCall w.mal.firewallZonePolicyIPv4 idx (postGroupStep rt false w idx group).1)) ∧
    (((zonePairs cfg).map (fun p => policyName false p.1 p.2 idx)).Nodup →
      (postGroupStep rt false w idx group).1 ≠ "" →
      (∀ p ∈ zonePairs cfg,
        goLookup w.mal.firewallZonePolicyIPv4 (policyName false p.1 p.2 idx) = none) →
      (chunkBodyIPv4 cfg rt w idx group).calls
        = (postGroupStep rt false w idx group).2.calls ++
          (zonePairs cfg).map (fun p =>
            Call.CreateFirewallZonePolicy (policyName false p.1 p.2 idx)
              (postGroupStep rt false w idx group).1 p.1 p.2) ∧
      ((zonePairs cfg).map (fun p =>
          Call.CreateFirewallZonePolicy (policyName false p.1 p.2 idx)
            (postGroupStep rt false w idx group).1 p.1 p.2)).length
        = cfg.unifiZoneSrc.length * cfg.unifiZoneDst.length) ∧
    ((∀ p ∈ zonePairs cfg, ∃ policyCache,
        goLookup w.mal.firewallZonePolicyIPv4 (policyName false p.1 p.2 idx) = some policyCache ∧
        policyCache.groupId = (postGroupStep rt false w idx group).1) →
      chunkBodyIPv4 cfg rt w idx group = (postGroupStep rt false w idx group).2) := by
  have hpol := (postGroupStep_policies rt false w idx group).1
  have hbody := chunkBodyIPv4_zone cfg rt w idx group hz
  have hall : ((zonePairs cfg).map (fun p => policyName false p.1 p.2 idx)).Nodup →
      (chunkBodyIPv4 cfg rt w idx group).calls
        = (postGroupStep rt false w idx group).2.calls ++
          ((zonePairs cfg).filter
            (policyDue w.mal.firewallZonePolicyIPv4 idx (postGroupStep rt false w idx group).1)).map
            (policyCall w.mal.firewallZonePolicyIPv4 idx (postGroupStep rt false w idx group).1) := by
    intro hnd
    rw [hbody, pairs_foldl_calls rt idx _ _ hnd, hpol]
  refine ⟨fun w2 s d => zonePolicyStep_calls rt idx _ w2 s d,
    fun pol p => policyCall_groupId pol idx _ p, hall, ?_, ?_⟩
  · intro hnd hg hnone
    refine ⟨?_, ?_⟩
    · rw [hall hnd]
      congr 1
      have hf : (zonePairs cfg).filter
            (policyDue w.mal.firewallZonePolicyIPv4 idx (postGroupStep rt false w idx group).1)
          = zonePairs cfg := by
        rw [List.filter_eq_self]
        intro p hp
        unfold policyDue
        rw [hnone p hp]
        simpa using hg
      rw [hf]
      apply List.map_congr_left
      intro p hp
      unfold policyCall
      rw [hnone p hp]
      simp
    · rw [List.length_map, zonePairs_length]
  · intro hsame
    rw [hbody]
    apply pairs_foldl_skip
    intro p hp
    obtain ⟨pc, h1, h2⟩ := hsame p hp
    unfold policyDue
    rw [hpol, h1]
    simp [h2]

theorem zone_policy_posts_witness :
    (zoneList.isZoneBased = true ∧
      ((zonePairs twoByThree).map (fun p => policyName false p.1 p.2 0)).Nodup ∧
      (postGroupStep okRuntime false ⟨zoneList, []⟩ 0 ["192.0.2.1"]).1 ≠ "") ∧
    ((zonePairs twoByThree).map (fun p =>
        Call.CreateFirewallZonePolicy (policyName false p.1 p.2 0)
          (postGroupStep okRuntime false ⟨zoneList, []⟩ 0 ["192.0.2.1"]).1 p.1 p.2)).length
      = 2 * 3 :=
  ⟨⟨rfl, by decide, by decide⟩,
    ((zone_policy_posts twoByThree okRuntime ⟨zoneList, []⟩ 0 ["192.0.2.1"] rfl).2.2.2.1
      (by decide) (by decide) (fun _ _ => rfl)).2⟩

theorem zone_policy_posts_repeated_zone :
    (updateFirewall repeatedZone okRuntime 1 ⟨zoneList, []⟩).map World.calls
      = some [Call.CreateFirewallGroup "cs-unifi-bouncer-ipv4-0" ["192.0.2.1"],
          Call.CreateFirewallZonePolicy "cs-unifi-bouncer-ipv4-lan->wan-0"
            "group-cs-unifi-bouncer-ipv4-0" "lan" "wan"] ∧
    repeatedZone.unifiZoneSrc.length * repeatedZone.unifiZoneDst.length = 2 ∧
    zoneList.firewallZonePolicyIPv4 = [] := by
  decide

/-! ## A ban withdrawn before the timer fires -/

theorem goDelete_goSet {α : Type} (m : GoMap α) (k : String) (v : α) (h : k ∉ goKeys m) :
    goDelete (goSet m k v) k = m := by
  have h1 : goDelete (goSet m k v) k = goDelete (goDelete m k) k := by
    simp [goDelete, goSet, List.filter]
  rw [h1, goDelete_of_not_mem m k h, goDelete_of_not_mem m k h]

theorem goIndex_of_not_mem (m : GoMap Bool) (k : String) (h : k ∉ goKeys m) :
    goIndex m k = false := by
  have : goLookup m k = none := by
    by_contra hn
    exact h ((mem_goKeys_iff m k).2 hn)
  simp [goIndex, this]

theorem splitLoop_nil {σ : Type} (maxGroupSize : Int) (body : σ → Int → List String → σ)
    (s : σ) : splitLoop [] maxGroupSize body s = some s := by
  unfold splitLoop
  rw [List.length_nil, splitLoopAux, if_neg (by simp)]

theorem updateFamily_idle (cfg : Config) (rt : Runtime) (f : Bool) (fuel n : Nat) (w : World)
    (hfuel : 1 ≤ fuel) (hn : 1 ≤ n) (hmax : (n : Int) ≤ maxInt) (hcfg : cfg.maxGroupSize = (n : Int))
    (hord : rt.mapOrder [] = []) (hcache : cacheOf f w.mal = [])
    (hrule : goLookup (rulesOf f w.mal) (groupName f 0) = none) :
    updateFamily cfg rt f fuel w = some w := by
  have hk : getKeys rt (cacheOf f w.mal) = [] := by rw [hcache]; exact hord
  obtain ⟨f1, rfl⟩ : ∃ f1, fuel = f1 + 1 := ⟨fuel - 1, by omega⟩
  have hng : numGroups 0 (n : Int) = some 0 := by
    have hmax1 : ((0 : Nat) : Int) + (n : Int) - 1 ≤ maxInt := by
      have h := hmax
      unfold maxInt at h ⊢
      omega
    have := numGroups_eq 0 n hn hmax1
    rw [this]
    have : (0 + n - 1) / n = 0 := Nat.div_eq_of_lt (by omega)
    rw [this]; rfl
  unfold updateFamily
  rw [hk, hcfg, List.length_nil, hng]
  rw [splitLoop_nil]
  exact deleteLoop_stop rt f f1 0 w hrule

/-- C6 (amended): for every state with `modified = false` and every address `a` not in the cache,
after a decision batch whose New list is a ban of `a` and a decision batch whose Deleted list is
that same ban the state is the initial one except that `modified` is true (it stays false when
`a` contains a colon and IPv6 is disabled, both decisions being ignored); the inactivity-timer
fire that follows issues no remote call when both address caches are empty and neither rule cache
has an entry for index 0 (`maxGroupSize ≥ 1`, a `range` over an empty map visiting nothing), and
then leaves the initial state. -/
theorem ban_then_unban (cfg : Config) (mal : unifiAddrList) (a : String)
    (hm : mal.modified = false) (ha : a ∉ goKeys (cacheOf (containsColon a) mal)) :
    decisionProcess cfg (decisionProcess cfg mal ⟨[], [⟨"ban", a⟩]⟩) ⟨[⟨"ban", a⟩], []⟩
      = { mal with modified := (!containsColon a || cfg.useIPV6) } ∧
    ∀ (rt : Runtime) (fuel n : Nat) (calls : List Call), 1 ≤ fuel → 1 ≤ n → (n : Int) ≤ maxInt →
      cfg.maxGroupSize = (n : Int) → rt.mapOrder [] = [] →
      mal.cacheIpv4 = [] → mal.cacheIpv6 = [] →
      goLookup mal.firewallRuleIPv4 (groupName false 0) = none →
      goLookup mal.firewallRuleIPv6 (groupName true 0) = none →
      onTimer cfg rt fuel
          ⟨decisionProcess cfg (decisionProcess cfg mal ⟨[], [⟨"ban", a⟩]⟩) ⟨[⟨"ban", a⟩], []⟩,
            calls⟩
        = some ⟨mal, calls⟩ := by
  have h1 : decisionProcess cfg (decisionProcess cfg mal ⟨[], [⟨"ban", a⟩]⟩) ⟨[⟨"ban", a⟩], []⟩
      = { mal with modified := (!containsColon a || cfg.useIPV6) } := by
    simp only [decisionProcess, List.foldl_cons, List.foldl_nil]
    cases mal with
    | mk c4 c6 g4 g6 r4 r6 p4 p6 md zb zs =>
      simp only at hm
      subst hm
      by_cases hc : containsColon a = true
      · rw [hc, cacheOf_true] at ha
        simp only at ha
        by_cases hu : cfg.useIPV6 = true
        · simp [add, remove, hc, hu, goIndex_of_not_mem _ _ ha, goIndex_goSet_same,
            goDelete_goSet _ _ _ ha]
        · simp only [Bool.not_eq_true] at hu
          simp [add, remove, hc, hu]
      · simp only [Bool.not_eq_true] at hc
        rw [hc, cacheOf_false] at ha
        simp only at ha
        simp [add, remove, hc, goIndex_of_not_mem _ _ ha, goIndex_goSet_same,
          goDelete_goSet _ _ _ ha]
  refine ⟨h1, ?_⟩
  intro rt fuel n calls hfuel hn hmax hcfg hord h4 h6 hr4 hr6
  rw [h1]
  have hrun : updateFirewall cfg rt fuel
      ⟨{ mal with modified := (!containsColon a || cfg.useIPV6) }, calls⟩
      = some ⟨{ mal with modified := (!containsColon a || cfg.useIPV6) }, calls⟩ := by
    unfold updateFirewall
    split_ifs
    · rfl
    · rw [updateFamily_idle cfg rt false fuel n
        ⟨{ mal with modified := (!containsColon a || cfg.useIPV6) }, calls⟩
        hfuel hn hmax hcfg hord h4 hr4]
      exact updateFamily_idle cfg rt true fuel n
        ⟨{ mal with modified := (!containsColon a || cfg.useIPV6) }, calls⟩
        hfuel hn hmax hcfg hord h6 hr6
  unfold onTimer
  rw [hrun]
  simp only
  cases mal
  simp only at hm
  simp [hm]

theorem ban_then_unban_witness :
    (emptyList.modified = false ∧
      "203.0.113.5" ∉ goKeys (cacheOf (containsColon "203.0.113.5") emptyList)) ∧
    (decisionProcess sampleConfig
        (decisionProcess sampleConfig emptyList ⟨[], [⟨"ban", "203.0.113.5"⟩]⟩)
        ⟨[⟨"ban", "203.0.113.5"⟩], []⟩).modified = true ∧
    onTimer sampleConfig okRuntime 1
        ⟨decisionProcess sampleConfig
          (decisionProcess sampleConfig emptyList ⟨[], [⟨"ban", "203.0.113.5"⟩]⟩)
          ⟨[⟨"ban", "203.0.113.5"⟩], []⟩, []⟩
      = some ⟨emptyList, []⟩ :=
  ⟨⟨rfl, by decide⟩,
    by rw [(ban_then_unban sampleConfig emptyList "203.0.113.5" rfl (by decide)).1]; rfl,
    (ban_then_unban sampleConfig emptyList "203.0.113.5" rfl (by decide)).2 okRuntime 1 2 []
      (le_refl 1) (by decide) (by decide) rfl rfl rfl rfl rfl rfl⟩

theorem ban_then_unban_reposts :
    settledList.modified = false ∧
    "203.0.113.5" ∉ goKeys settledList.cacheIpv4 ∧
    (onDecisions sampleConfig
        (onDecisions sampleConfig ⟨settledList, []⟩ ⟨[], [⟨"ban", "203.0.113.5"⟩]⟩)
        ⟨[⟨"ban", "203.0.113.5"⟩], []⟩).mal.modified = true ∧
    (onTimer sampleConfig okRuntime 1
        (onDecisions sampleConfig
          (onDecisions sampleConfig ⟨settledList, []⟩ ⟨[], [⟨"ban", "203.0.113.5"⟩]⟩)
          ⟨[⟨"ban", "203.0.113.5"⟩], []⟩)).map World.calls
      = some [Call.UpdateFirewallGroup "g0" "cs-unifi-bouncer-ipv4-0" ["198.51.100.7"]] := by
  decide

/-! ## Evaluations of the pass -/

/-- C7: on a state with one chunk and the rule and group of index 1 still cached, with a controller
that deletes the rule and refuses to delete the group, the pass drops the rule's cache entry and
keeps the group's; the next timer fire makes no call; and the pass after a further ban, on a
controller that would accept the deletion, scans the rule cache, stops at index 1 and never calls
`DeleteFirewallGroup` for the retained group. -/
theorem group_delete_not_retried :
    (onTimer sampleConfig groupDeleteFails 2 ⟨staleList, []⟩).map World.calls
      = some [Call.UpdateFirewallGroup "g0" "cs-unifi-bouncer-ipv4-0" ["198.51.100.7"],
          Call.DeleteFirewallRule "r1", Call.DeleteFirewallGroup "g1"] ∧
    (onTimer sampleConfig groupDeleteFails 2 ⟨staleList, []⟩).map
        (fun w => (goLookup w.mal.firewallRuleIPv4 "cs-unifi-bouncer-ipv4-1",
          goLookup w.mal.firewallGroupsIPv4 "cs-unifi-bouncer-ipv4-1", w.mal.modified))
      = some (none, some "g1", false) ∧
    ((onTimer sampleConfig groupDeleteFails 2 ⟨staleList, []⟩).bind
        (fun w => onTimer sampleConfig okRuntime 2 ⟨w.mal, []⟩)).map World.calls
      = some [] ∧
    ((onTimer sampleConfig groupDeleteFails 2 ⟨staleList, []⟩).bind
        (fun w => onTimer sampleConfig okRuntime 2
          (onDecisions sampleConfig ⟨w.mal, []⟩ ⟨[], [⟨"ban", "203.0.113.5"⟩]⟩))).map
        (fun w => (w.calls, goLookup w.mal.firewallGroupsIPv4 "cs-unifi-bouncer-ipv4-1"))
      = some ([Call.UpdateFirewallGroup "g0" "cs-unifi-bouncer-ipv4-0"
          ["203.0.113.5", "198.51.100.7"]], some "g1") := by
  decide

/-- C8: in zone mode, on a state with one chunk and the zone policy and group of index 1 still
cached, the pass on a controller that accepts every call updates the group of index 0 and makes
no delete call; the policy and the group of index 1 stay in the caches. -/
theorem stale_zone_policy_kept :
    numGroups (getKeys okRuntime staleZoneList.cacheIpv4).length sampleConfig.maxGroupSize
      = some 1 ∧
    updateFirewall sampleConfig okRuntime 1 ⟨staleZoneList, []⟩
      = some ⟨staleZoneList,
          [Call.UpdateFirewallGroup "g0" "cs-unifi-bouncer-ipv4-0" ["198.51.100.7"]]⟩ ∧
    goLookup staleZoneList.firewallZonePolicyIPv4 "cs-unifi-bouncer-ipv4-lan->wan-1"
      = some ⟨"p1", "g1"⟩ ∧
    goLookup staleZoneList.firewallGroupsIPv4 "cs-unifi-bouncer-ipv4-1" = some "g1" := by
  decide

/-- C9: in zone mode, for one banned IPv6 address and nothing cached, the pass creates the IPv6
group and then a legacy rule for it, and no zone policy; for one banned IPv4 address in the same
situation it creates the group and the zone policy of the (source, destination) pair. -/
theorem ipv6_chunk_posts_legacy_rule :
    (updateFirewall sampleConfig okRuntime 1 ⟨zoneListIPv6, []⟩).map World.calls
      = some [Call.CreateFirewallGroup "cs-unifi-bouncer-ipv6-0" ["2001:db8::1"],
          Call.CreateFirewallRule "cs-unifi-bouncer-ipv6-0" "group-cs-unifi-bouncer-ipv6-0"] ∧
    (updateFirewall sampleConfig okRuntime 1 ⟨zoneList, []⟩).map World.calls
      = some [Call.CreateFirewallGroup "cs-unifi-bouncer-ipv4-0" ["192.0.2.1"],
          Call.CreateFirewallZonePolicy "cs-unifi-bouncer-ipv4-lan->wan-0"
            "group-cs-unifi-bouncer-ipv4-0" "lan" "wan"] := by
  decide

end CsUnifiBouncer
